import Mathlib

/-!
Verification development for the Google-Form auto-filler (`src/app.py`).

The file shallowly embeds, in Lean 4, the pure content of three functions of
the source:

* `extract_questions_from_fb_data` — recovery of question records from the
  `FB_PUBLIC_LOAD_DATA_` literal embedded in the page HTML (regex search,
  escape-sequence replacement, control-character stripping, JSON parsing,
  fixed-index navigation, per-entry harvesting);
* the answer-reconciliation step of `generate_answers` (case-insensitive
  exact match, then most-similar option via `difflib.SequenceMatcher`);
* the choice-option matching tiers and free-text fill logic of `fill_form`
  (normalization, live-label dictionary, exact / substring / original-options
  / similarity tiers, first-widget fallback, text-input resolution order,
  and the driver loop).

Python strings are modelled as `List Char` (`String` at API boundaries);
similarity scores are exact rationals (`ℚ`) instead of IEEE floats — every
comparison the source makes against a float literal (0.6, 0.5) is modelled by
the exact rational of the same decimal. Character classes (`\w`, `\s`,
`str.lower`) are modelled on their ASCII fragments. The embedded `difflib`
model implements `SequenceMatcher.get_matching_blocks` without the autojunk
heuristic (which only activates for strings of length ≥ 200). Side effects
(clicks, keystrokes, Streamlit warnings) are reified as an action trace.
-/

set_option autoImplicit false

namespace FormFiller

/-! ## Python string primitives -/

/-- Whitespace recognized by Python's regex class `\s` and by no-argument
`str.strip` (ASCII fragment). -/
def pySpace (c : Char) : Bool :=
  c = ' ' || c = '\t' || c = '\n' || c = '\r' || c = '\x0b' || c = '\x0c'

/-- Word characters per Python's regex class `\w` (ASCII fragment):
alphanumerics and underscore. -/
def pyWord (c : Char) : Bool := c.isAlphanum || c = '_'

/-- Characters kept by the substitution with pattern not-word-not-space and
empty replacement, i.e. word characters and whitespace. -/
def pyKeep (c : Char) : Bool := pyWord c || pySpace c

/-- Python `str.strip()`: drop leading and trailing whitespace. -/
def pyStrip (l : List Char) : List Char :=
  List.rdropWhile pySpace (l.dropWhile pySpace)

/-- Python `str.lower()` applied character-wise (ASCII case mapping). -/
def pyLower (l : List Char) : List Char := l.map Char.toLower

/-- The normalizer of fill_form (src/app.py line 238 and line 266):
substitute away every character that is neither a word character nor
whitespace from the lower-cased text, then strip. -/
def pyNormalize (l : List Char) : List Char :=
  pyStrip ((pyLower l).filter pyKeep)

/-- `String`-level wrapper for `pyStrip`. -/
def pyStripS (s : String) : String := ⟨pyStrip s.data⟩

/-- `String`-level wrapper for `pyLower`. -/
def pyLowerS (s : String) : String := ⟨pyLower s.data⟩

/-- `String`-level wrapper for `pyNormalize`. -/
def pyNormalizeS (s : String) : String := ⟨pyNormalize s.data⟩

/-! ### Facts about the normalizer -/

theorem toNat_ofNat_valid (n : Nat) (h : n < 55296) : (Char.ofNat n).toNat = n := by
  have hv : n.isValidChar := Or.inl h
  rw [Char.ofNat, dif_pos hv]
  simp [Char.ofNatAux, Char.toNat, UInt32.toNat]

theorem toLower_toLower (c : Char) : Char.toLower (Char.toLower c) = Char.toLower c := by
  unfold Char.toLower
  by_cases h : c.toNat ≥ 65 ∧ c.toNat ≤ 90
  · rw [if_pos h]
    have h32 : (Char.ofNat (c.toNat + 32)).toNat = c.toNat + 32 :=
      toNat_ofNat_valid _ (by omega)
    rw [if_neg (by rw [h32]; omega)]
  · rw [if_neg h, if_neg h]

theorem mem_pyStrip {c : Char} {l : List Char} (h : c ∈ pyStrip l) : c ∈ l := by
  unfold pyStrip at h
  have h1 := List.rdropWhile_prefix pySpace (l.dropWhile pySpace)
  have h2 : c ∈ l.dropWhile pySpace := h1.subset h
  exact (List.dropWhile_sublist pySpace).subset h2

theorem pyStrip_pyStrip (l : List Char) : pyStrip (pyStrip l) = pyStrip l := by
  unfold pyStrip
  have hdrop : List.dropWhile pySpace
      (List.rdropWhile pySpace (l.dropWhile pySpace)) =
      List.rdropWhile pySpace (l.dropWhile pySpace) := by
    rw [List.dropWhile_eq_self_iff]
    intro hl
    have hpre := List.rdropWhile_prefix (p := pySpace) (l := l.dropWhile pySpace)
    have hlen : 0 < (l.dropWhile pySpace).length := lt_of_lt_of_le hl hpre.length_le
    have hgetEq := hpre.getElem (n := 0) hl
    rw [List.get_eq_getElem, hgetEq]
    have := List.dropWhile_get_zero_not (p := pySpace) l hlen
    rwa [List.get_eq_getElem] at this
  rw [hdrop, List.rdropWhile_idempotent]

theorem map_fixed_eq_self {α : Type} (f : α → α) :
    ∀ (l : List α), (∀ c ∈ l, f c = c) → l.map f = l
  | [], _ => rfl
  | a :: t, h => by
    have ht : t.map f = t :=
      map_fixed_eq_self f t (fun c hc => h c (List.mem_cons_of_mem a hc))
    simp [h a (List.mem_cons_self a t), ht]

theorem pyNormalize_chars {c : Char} {l : List Char} (h : c ∈ pyNormalize l) :
    (Char.toLower c = c) ∧ pyKeep c = true := by
  unfold pyNormalize at h
  have h1 : c ∈ (pyLower l).filter pyKeep := mem_pyStrip h
  have h2 : c ∈ pyLower l := List.mem_of_mem_filter h1
  have h3 : pyKeep c = true := List.of_mem_filter h1
  refine ⟨?_, h3⟩
  unfold pyLower at h2
  obtain ⟨a, _, rfl⟩ := List.mem_map.mp h2
  exact toLower_toLower a

theorem pyNormalize_idem (l : List Char) : pyNormalize (pyNormalize l) = pyNormalize l := by
  have hmap : pyLower (pyNormalize l) = pyNormalize l := by
    unfold pyLower
    exact map_fixed_eq_self _ _ (fun c hc => (pyNormalize_chars hc).1)
  have hfilter : (pyNormalize l).filter pyKeep = pyNormalize l := by
    apply List.filter_eq_self.mpr
    intro c hc
    exact (pyNormalize_chars hc).2
  show pyStrip ((pyLower (pyNormalize l)).filter pyKeep) = pyNormalize l
  rw [hmap, hfilter]
  have : pyStrip (pyNormalize l) = pyNormalize l := by
    unfold pyNormalize
    exact pyStrip_pyStrip _
  exact this

/-- C7: the normalizer — lower-case, remove every character that is neither
a word character nor whitespace, strip — is idempotent on every string. -/
theorem pyNormalizeS_idem (s : String) :
    pyNormalizeS (pyNormalizeS s) = pyNormalizeS s := by
  unfold pyNormalizeS
  exact congrArg String.mk (pyNormalize_idem s.data)

/-! ## difflib.SequenceMatcher model

`SequenceMatcher(None, a, b).ratio()` is `2*M/T` where `T = len(a)+len(b)`
and `M` is the total size of the matching blocks found by recursively
splitting around the longest matching block.  The longest matching block of
`a[alo:ahi]` and `b[blo:bhi]` is found by scanning end positions `(i, j)` in
lexicographic order and keeping the first block of strictly larger size, as
difflib's dynamic program does.  The autojunk heuristic (active only when
`len(b) >= 200`) is not modelled.  The score is an exact rational. -/

/-- Length of the matching run of `a` and `b` that ends exactly at positions
`i` and `j`, never reaching below `alo`/`blo`.  Fuel-driven; `i + 1` fuel is
always enough. -/
def runEnd (a b : List Char) (alo blo : Nat) : Nat → Nat → Nat → Nat
  | 0, _, _ => 0
  | _, 0, 0 =>
    if alo = 0 && blo = 0 && (a.get? 0).isSome && a.get? 0 = b.get? 0 then 1 else 0
  | fuel + 1, i, j =>
    if i < alo || j < blo then 0
    else if (a.get? i).isSome && a.get? i = b.get? j then
      if i = 0 || j = 0 then 1 else 1 + runEnd a b alo blo fuel (i - 1) (j - 1)
    else 0

/-- A matching block: start in `a`, start in `b`, size. -/
structure MatchBlock where
  ia : Nat
  jb : Nat
  size : Nat
deriving Repr, DecidableEq

/-- difflib `find_longest_match` on `a[alo:ahi]`, `b[blo:bhi]` (no junk): scan
all end positions in lexicographic order, keep the first strictly larger run. -/
def findLongestMatch (a b : List Char) (alo ahi blo bhi : Nat) : MatchBlock :=
  let pairs := (List.range' alo (ahi - alo)).flatMap
    (fun i => (List.range' blo (bhi - blo)).map (fun j => (i, j)))
  pairs.foldl
    (fun best ij =>
      let k := runEnd a b alo blo (ij.1 + 1) ij.1 ij.2
      if k > best.size then ⟨ij.1 + 1 - k, ij.2 + 1 - k, k⟩ else best)
    ⟨alo, blo, 0⟩

/-- Total size of difflib's matching blocks of `a[alo:ahi]` and `b[blo:bhi]`:
recursively split around the longest matching block. -/
def sumMatches (a b : List Char) : Nat → Nat → Nat → Nat → Nat → Nat
  | 0, _, _, _, _ => 0
  | fuel + 1, alo, ahi, blo, bhi =>
    let m := findLongestMatch a b alo ahi blo bhi
    if m.size = 0 then 0
    else
      m.size + sumMatches a b fuel alo m.ia blo m.jb +
        sumMatches a b fuel (m.ia + m.size) ahi (m.jb + m.size) bhi

/-- `SequenceMatcher(None, a, b).ratio()` as an exact rational: `2*M/T`, and
`1` when both strings are empty (as difflib returns). -/
def similarity (a b : List Char) : ℚ :=
  if a.length + b.length = 0 then 1
  else
    (2 * (sumMatches a b (a.length + b.length + 1) 0 a.length 0 b.length) : ℚ) /
      ((a.length + b.length : Nat) : ℚ)

/-! ## generate_answers: reconciliation of a model answer with the options

For a choice question (src/app.py lines 153-166) the model output is first
compared case-insensitively with each option (first match wins, the original
option casing is stored); failing that, the option maximizing
`SequenceMatcher(None, opt.lower(), answer.lower()).ratio()` is stored.
Python's `max` keeps the first element attaining the maximal key. -/

/-- Python `max(xs, key=f)` on a nonempty list: first element with maximal key. -/
def pyMaxBy (f : String → ℚ) : List String → Option String
  | [] => none
  | x :: xs => some (xs.foldl (fun best y => if f y > f best then y else best) x)

/-- The reconciliation step of generate_answers for a choice question: the
stored answer given the extracted `options` and the stripped model output
`answer`.  `none` only on an empty options list (unreachable in the source,
which enters this branch only when `options` is truthy). -/
def reconcile_answer (options : List String) (answer : String) : Option String :=
  match options.find? (fun opt => pyLowerS opt = pyLowerS answer) with
  | some opt => some opt
  | none => pyMaxBy (fun opt => similarity (pyLower opt.data) (pyLower answer.data)) options

theorem pyMaxBy_go_mem (f : String → ℚ) :
    ∀ (xs : List String) (x : String),
      xs.foldl (fun best y => if f y > f best then y else best) x ∈ x :: xs
  | [], _ => List.mem_cons_self _ _
  | y :: ys, x => by
    simp only [List.foldl_cons]
    have h := pyMaxBy_go_mem f ys (if f y > f x then y else x)
    rcases List.mem_cons.mp h with h1 | h1
    · rw [h1]
      by_cases hc : f y > f x
      · rw [if_pos hc]
        exact List.mem_cons_of_mem x (List.mem_cons_self y ys)
      · rw [if_neg hc]
        exact List.mem_cons_self x (y :: ys)
    · exact List.mem_cons_of_mem x (List.mem_cons_of_mem y h1)

theorem pyMaxBy_go_ge (f : String → ℚ) :
    ∀ (xs : List String) (x : String), ∀ z ∈ x :: xs,
      f z ≤ f (xs.foldl (fun best y => if f y > f best then y else best) x)
  | [], _, z, hz => by
    rcases List.mem_cons.mp hz with h | h
    · exact h ▸ le_refl _
    · exact absurd h (List.not_mem_nil z)
  | y :: ys, x, z, hz => by
    simp only [List.foldl_cons]
    have hstep : f x ≤ f (if f y > f x then y else x) ∧
        f y ≤ f (if f y > f x then y else x) := by
      by_cases hc : f y > f x
      · rw [if_pos hc]; exact ⟨le_of_lt hc, le_refl _⟩
      · rw [if_neg hc]; exact ⟨le_refl _, le_of_not_lt hc⟩
    rcases List.mem_cons.mp hz with h1 | h1
    · calc f z = f x := by rw [h1]
        _ ≤ f (if f y > f x then y else x) := hstep.1
        _ ≤ _ := pyMaxBy_go_ge f ys _ _ (List.mem_cons_self _ _)
    · rcases List.mem_cons.mp h1 with h2 | h2
      · calc f z = f y := by rw [h2]
          _ ≤ f (if f y > f x then y else x) := hstep.2
          _ ≤ _ := pyMaxBy_go_ge f ys _ _ (List.mem_cons_self _ _)
      · exact pyMaxBy_go_ge f ys _ _ (List.mem_cons.mpr (Or.inr h2))

theorem pyMaxBy_spec (f : String → ℚ) (x : String) (xs : List String) :
    ∃ r, pyMaxBy f (x :: xs) = some r ∧ r ∈ x :: xs ∧ ∀ z ∈ x :: xs, f z ≤ f r :=
  ⟨_, rfl, pyMaxBy_go_mem f xs x, pyMaxBy_go_ge f xs x⟩

/-- C5: for a choice question with a nonempty options list, the reconciled
answer is itself one of the options; it is an option equal to the model
output up to lower-casing when one exists, and otherwise an option of
maximal similarity ratio to the model output. -/
theorem reconcile_answer_spec (options : List String) (answer : String)
    (h : options ≠ []) :
    ∃ r, reconcile_answer options answer = some r ∧ r ∈ options ∧
      ((∃ opt ∈ options, pyLowerS opt = pyLowerS answer) → pyLowerS r = pyLowerS answer) ∧
      ((∀ opt ∈ options, pyLowerS opt ≠ pyLowerS answer) →
        ∀ opt ∈ options,
          similarity (pyLower opt.data) (pyLower answer.data) ≤
            similarity (pyLower r.data) (pyLower answer.data)) := by
  cases options with
  | nil => exact absurd rfl h
  | cons x xs =>
    unfold reconcile_answer
    cases hf : (x :: xs).find? (fun opt => pyLowerS opt = pyLowerS answer) with
    | some opt =>
      have hp := List.find?_some hf
      have hmem := List.mem_of_find?_eq_some hf
      exact ⟨opt, rfl, hmem, fun _ => of_decide_eq_true hp,
        fun hno => absurd (of_decide_eq_true hp) (hno opt hmem)⟩
    | none =>
      have hno : ∀ opt ∈ x :: xs, pyLowerS opt ≠ pyLowerS answer := by
        intro opt hm
        have := List.find?_eq_none.mp hf opt hm
        simpa using this
      obtain ⟨r, hr, hrmem, hrge⟩ :=
        pyMaxBy_spec (fun opt => similarity (pyLower opt.data) (pyLower answer.data)) x xs
      refine ⟨r, hr, hrmem, fun hex => ?_, fun _ opt hopt => hrge opt hopt⟩
      obtain ⟨opt, hm, heq⟩ := hex
      exact absurd heq (hno opt hm)

/-- Witness for C5 at a concrete input: options Red and Blue, model output
"RED" — the case-insensitive match stores "Red". -/
theorem reconcile_answer_spec_witness :
    ∃ r, reconcile_answer ["Red", "Blue"] "RED" = some r ∧ r ∈ ["Red", "Blue"] ∧
      ((∃ opt ∈ ["Red", "Blue"], pyLowerS opt = pyLowerS "RED") →
        pyLowerS r = pyLowerS "RED") ∧
      ((∀ opt ∈ ["Red", "Blue"], pyLowerS opt ≠ pyLowerS "RED") →
        ∀ opt ∈ ["Red", "Blue"],
          similarity (pyLower opt.data) (pyLower "RED".data) ≤
            similarity (pyLower r.data) (pyLower "RED".data)) :=
  reconcile_answer_spec ["Red", "Blue"] "RED" (by decide)

/-! ## fill_form: the option matcher (src/app.py lines 216-354)

The choice branch of fill_form sees an ordered list of live option widgets
(`option_elements`), extracts a text for each, builds a dictionary keyed by
normalized text (Python dict: insertion keeps first-occurrence key position,
assignment to an existing key replaces the value), and resolves the answer
through the tiers: exact dictionary hit, substring containment over the
dictionary items, exact/substring over the originally scraped options
(clicking by dictionary hit or position), similarity over the dictionary
items (floor 0.6), similarity over the original options by position
(floor 0.5, position must be in range), and finally the first widget.
A selection is the index of the clicked widget in `option_elements`. -/

/-- A live option widget as the choice branch sees it: its own text, the
texts of its descendant div elements in document order, and its aria-label
attribute when present (lines 248-262). -/
structure OptWidget where
  text : String
  childTexts : List String
  ariaLabel : Option String
deriving Repr, DecidableEq

/-- Text extraction for one option widget (lines 249-262): the widget's own
stripped text; if empty, the first nonempty stripped descendant-div text;
if still empty, the aria-label attribute or the empty string. -/
def widgetText (w : OptWidget) : String :=
  let t := pyStripS w.text
  if t ≠ "" then t
  else
    match (w.childTexts.map pyStripS).find? (fun s => s ≠ "") with
    | some t2 => t2
    | none => w.ariaLabel.getD ""

/-- One Python dict assignment `d[k] = v`: replace the value in place when
the key is present, else append the pair. -/
def dictInsert (d : List (String × Nat)) (k : String) (v : Nat) : List (String × Nat) :=
  if d.any (fun p => p.1 = k) then d.map (fun p => if p.1 = k then (k, v) else p)
  else d ++ [(k, v)]

/-- Python dict lookup (the dict built here always has distinct keys). -/
def dictGet (d : List (String × Nat)) (k : String) : Option Nat :=
  match d with
  | [] => none
  | p :: rest => if p.1 = k then some p.2 else dictGet rest k

/-- The loop of lines 248-270 building `option_dict`: for each widget index
in order, if the extracted text is nonempty, assign
`d[normalize(text)] = widget`. -/
def buildDictGo (d : List (String × Nat)) (i : Nat) : List String → List (String × Nat)
  | [] => d
  | t :: rest =>
    buildDictGo (if t ≠ "" then dictInsert d (pyNormalizeS t) i else d) (i + 1) rest

/-- `option_dict` for an `option_elements` list with the given extracted texts. -/
def buildOptionDict (labels : List String) : List (String × Nat) :=
  buildDictGo [] 0 labels

/-- Python substring containment `a in b` on strings. -/
def pyIn (a b : String) : Bool := decide (a.data <:+: b.data)

/-- Tier 1 (lines 273-276): exact dictionary hit on the normalized answer. -/
def tier1 (na : String) (d : List (String × Nat)) : Option Nat := dictGet d na

/-- Tier 2 (lines 278-284): first dictionary item whose key contains, or is
contained in, the normalized answer. -/
def tier2 (na : String) (d : List (String × Nat)) : Option Nat :=
  (d.find? (fun p => pyIn p.1 na || pyIn na p.1)).map
    (fun p => p.2)

/-- Tier 3 (lines 287-314): walk the original options; on a normalized exact
match click the dictionary widget for that text, or the widget at the same
position when the dictionary misses and the position is in range; on a
substring match click by position when in range.  When neither click fires
the walk continues with the next option. -/
def tier3Go (na : String) (d : List (String × Nat)) (n : Nat) :
    Nat → List String → Option Nat
  | _, [] => none
  | i, opt :: rest =>
    let no := pyNormalizeS opt
    if no = na then
      match dictGet d no with
      | some w => some w
      | none => if i < n then some i else tier3Go na d n (i + 1) rest
    else if pyIn no na || pyIn na no then
      if i < n then some i else tier3Go na d n (i + 1) rest
    else tier3Go na d n (i + 1) rest

/-- Tier 3 entry point. -/
def tier3 (na : String) (d : List (String × Nat)) (n : Nat) (options : List String) :
    Option Nat :=
  tier3Go na d n 0 options

/-- Tier 4 loop (lines 322-328): over the dictionary items in order, keep the
first item strictly improving the best score while exceeding the 0.6 floor. -/
def tier4Go (na : String) : List (String × Nat) → ℚ → Option Nat → Option Nat
  | [], _, best => best
  | p :: rest, bs, best =>
    let score := similarity p.1.data na.data
    if score > bs ∧ score > 3 / 5 then tier4Go na rest score (some p.2)
    else tier4Go na rest bs best

/-- Tier 4 (lines 320-333): similarity over the live dictionary, floor 0.6. -/
def tier4 (na : String) (d : List (String × Nat)) : Option Nat :=
  tier4Go na d 0 none

/-- Tier 5 loop (lines 336-343): running maximum of the similarity between
each normalized original option and the normalized answer, keeping the index
of the first strict maximum; starts at score 0, index 0. -/
def tier5Go (na : String) : Nat → List String → ℚ → Nat → ℚ × Nat
  | _, [], bs, bi => (bs, bi)
  | i, opt :: rest, bs, bi =>
    let score := similarity (pyNormalizeS opt).data na.data
    if score > bs then tier5Go na (i + 1) rest score i
    else tier5Go na (i + 1) rest bs bi

/-- Tier 5 (lines 335-348): the positional similarity fallback; the best
original option is clicked by position only if its score exceeds 0.5 and the
position is within the live widget range. -/
def tier5 (na : String) (options : List String) (n : Nat) : Option Nat :=
  let r := tier5Go na 0 options 0 0
  if r.1 > 1 / 2 ∧ r.2 < n then some r.2 else none

/-- Tiers 1-5 in the source's order: the first tier to click wins.  The
normalized answer, the dictionary and the live widget count are shared by
all tiers exactly as in the source. -/
def matchTiers (answer : String) (labels options : List String) : Option Nat :=
  ((((tier1 (pyNormalizeS answer) (buildOptionDict labels)).orElse
      (fun _ => tier2 (pyNormalizeS answer) (buildOptionDict labels))).orElse
      (fun _ => tier3 (pyNormalizeS answer) (buildOptionDict labels)
        labels.length options)).orElse
    (fun _ => tier4 (pyNormalizeS answer) (buildOptionDict labels))).orElse
    (fun _ => tier5 (pyNormalizeS answer) options labels.length)

/-- The whole resolution (lines 273-354): the tiers, then the unconditional
first-widget fallback of lines 350-354. -/
def selectOption (answer : String) (labels options : List String) : Option Nat :=
  (matchTiers answer labels options).orElse
    (fun _ => if labels.length ≠ 0 then some 0 else none)

/-! ### Dictionary lemmas -/

theorem dictGet_dictInsert_self (d : List (String × Nat)) (k : String) (v : Nat) :
    dictGet (dictInsert d k v) k = some v := by
  unfold dictInsert
  by_cases h : d.any (fun p => p.1 = k)
  · rw [if_pos h]
    induction d with
    | nil => simp at h
    | cons p0 rest ih =>
      by_cases h0 : p0.1 = k
      · simp [dictGet, h0]
      · have hrest : rest.any (fun p => p.1 = k) := by
          simp only [List.any_cons, Bool.or_eq_true] at h
          rcases h with h | h
          · exact absurd (of_decide_eq_true h) h0
          · exact h
        simpa [dictGet, h0] using ih hrest
  · rw [if_neg h]
    induction d with
    | nil => simp [dictGet]
    | cons p0 rest ih =>
      have h0 : ¬ p0.1 = k := by
        intro hc
        exact h (by simp only [List.any_cons, Bool.or_eq_true]; exact Or.inl (by simpa))
      have hany : ¬ rest.any (fun p => p.1 = k) := by
        intro hc
        exact h (by simp only [List.any_cons, Bool.or_eq_true]; exact Or.inr hc)
      simpa [dictGet, h0] using ih hany

theorem dictGet_cons (p : String × Nat) (rest : List (String × Nat)) (k : String) :
    dictGet (p :: rest) k = if p.1 = k then some p.2 else dictGet rest k := rfl

theorem dictGet_dictInsert_ne (d : List (String × Nat)) (k k' : String) (v : Nat)
    (h : k' ≠ k) : dictGet (dictInsert d k v) k' = dictGet d k' := by
  unfold dictInsert
  by_cases ha : d.any (fun p => p.1 = k)
  · rw [if_pos ha]
    clear ha
    induction d with
    | nil => rfl
    | cons p0 rest ih =>
      simp only [List.map_cons]
      by_cases h0 : p0.1 = k
      · have h2 : ¬ p0.1 = k' := by rw [h0]; exact fun hc => h hc.symm
        have hkk : ¬ (k, v).1 = k' := fun hc => h hc.symm
        rw [if_pos h0, dictGet_cons, if_neg hkk, ih, dictGet_cons, if_neg h2]
      · rw [if_neg h0, dictGet_cons, dictGet_cons]
        by_cases h2 : p0.1 = k'
        · rw [if_pos h2, if_pos h2]
        · rw [if_neg h2, if_neg h2, ih]
  · rw [if_neg ha]
    induction d with
    | nil =>
      have hkk : ¬ (k, v).1 = k' := fun hc => h hc.symm
      rw [List.nil_append, dictGet_cons, if_neg hkk]
    | cons p0 rest ih =>
      have hany : ¬ rest.any (fun p => p.1 = k) := by
        intro hc
        exact ha (by simp only [List.any_cons, Bool.or_eq_true]; exact Or.inr hc)
      rw [List.cons_append, dictGet_cons, dictGet_cons]
      by_cases h2 : p0.1 = k'
      · rw [if_pos h2, if_pos h2]
      · rw [if_neg h2, if_neg h2]
        exact ih hany

theorem dictInsert_mem (d : List (String × Nat)) (k : String) (v : Nat)
    (p : String × Nat) (h : p ∈ dictInsert d k v) : p ∈ d ∨ p = (k, v) := by
  unfold dictInsert at h
  by_cases ha : d.any (fun p => p.1 = k)
  · rw [if_pos ha] at h
    obtain ⟨q, hq, hqe⟩ := List.mem_map.mp h
    by_cases h0 : q.1 = k
    · rw [if_pos h0] at hqe
      exact Or.inr hqe.symm
    · rw [if_neg h0] at hqe
      exact Or.inl (hqe ▸ hq)
  · rw [if_neg ha] at h
    rcases List.mem_append.mp h with h1 | h1
    · exact Or.inl h1
    · exact Or.inr (List.mem_singleton.mp h1)

theorem buildDictGo_entry_sound :
    ∀ (ls : List String) (d : List (String × Nat)) (i : Nat) (p : String × Nat),
      p ∈ buildDictGo d i ls →
      p ∈ d ∨ ∃ j t, ls.get? j = some t ∧ t ≠ "" ∧ pyNormalizeS t = p.1 ∧ p.2 = i + j
  | [], _, _, _, h => Or.inl h
  | t :: rest, d, i, p, h => by
    rcases buildDictGo_entry_sound rest _ (i + 1) p h with h1 | ⟨j, t', hg, hne, hn, hv⟩
    · by_cases ht : t ≠ ""
      · rw [if_pos ht] at h1
        rcases dictInsert_mem _ _ _ _ h1 with h2 | h2
        · exact Or.inl h2
        · refine Or.inr ⟨0, t, rfl, ht, ?_, ?_⟩
          · rw [h2]
          · rw [h2]
            simp
      · rw [if_neg ht] at h1
        exact Or.inl h1
    · exact Or.inr ⟨j + 1, t', by simpa using hg, hne, hn, by omega⟩

theorem buildDictGo_get_bump :
    ∀ (ls : List String) (d : List (String × Nat)) (i : Nat) (k : String) (w : Nat),
      dictGet d k = some w →
      ∃ v, dictGet (buildDictGo d i ls) k = some v ∧ (v = w ∨ i ≤ v)
  | [], d, i, k, w, h => ⟨w, h, Or.inl rfl⟩
  | t :: rest, d, i, k, w, h => by
    by_cases ht : t ≠ ""
    · show ∃ v, dictGet (buildDictGo (if t ≠ "" then _ else d) (i + 1) rest) k = _ ∧ _
      rw [if_pos ht]
      by_cases hk : pyNormalizeS t = k
      · have hself : dictGet (dictInsert d (pyNormalizeS t) i) k = some i := by
          rw [hk] at *
          exact dictGet_dictInsert_self d k i
        obtain ⟨v, hv, hor⟩ := buildDictGo_get_bump rest _ (i + 1) k i hself
        exact ⟨v, hv, Or.inr (by omega)⟩
      · have hne : dictGet (dictInsert d (pyNormalizeS t) i) k = some w := by
          rw [dictGet_dictInsert_ne d _ k i (fun hc => hk hc.symm)]
          exact h
        obtain ⟨v, hv, hor⟩ := buildDictGo_get_bump rest _ (i + 1) k w hne
        exact ⟨v, hv, by omega⟩
    · show ∃ v, dictGet (buildDictGo (if t ≠ "" then _ else d) (i + 1) rest) k = _ ∧ _
      rw [if_neg ht]
      obtain ⟨v, hv, hor⟩ := buildDictGo_get_bump rest d (i + 1) k w h
      exact ⟨v, hv, by omega⟩

theorem buildDictGo_get_ge :
    ∀ (ls : List String) (d : List (String × Nat)) (i : Nat) (k : String)
      (m : Nat) (t : String),
      ls.get? m = some t → t ≠ "" → pyNormalizeS t = k →
      ∃ v, dictGet (buildDictGo d i ls) k = some v ∧ i + m ≤ v
  | [], _, _, _, m, t, hg, _, _ => by simp at hg
  | t0 :: rest, d, i, k, m, t, hg, hne, hn => by
    cases m with
    | zero =>
      have ht0 : t0 = t := by simpa using hg
      subst ht0
      show ∃ v, dictGet (buildDictGo (if t0 ≠ "" then _ else d) (i + 1) rest) k = _ ∧ _
      rw [if_pos hne]
      have hself : dictGet (dictInsert d (pyNormalizeS t0) i) k = some i := by
        rw [hn] at *
        exact dictGet_dictInsert_self d k i
      obtain ⟨v, hv, hor⟩ := buildDictGo_get_bump rest _ (i + 1) k i hself
      exact ⟨v, hv, by omega⟩
    | succ m0 =>
      have hg0 : rest.get? m0 = some t := by simpa using hg
      obtain ⟨v, hv, hle⟩ := buildDictGo_get_ge rest _ (i + 1) k m0 t hg0 hne hn
      exact ⟨v, hv, by omega⟩

theorem dictGet_mem (k : String) (v : Nat) :
    ∀ (d : List (String × Nat)), dictGet d k = some v → (k, v) ∈ d
  | [], h => Option.noConfusion h
  | p :: rest, h => by
    by_cases h0 : p.1 = k
    · have hv : p.2 = v := by simpa [dictGet, h0] using h
      have : p = (k, v) := Prod.ext h0 hv
      exact this ▸ List.mem_cons_self p rest
    · have := dictGet_mem k v rest (by simpa [dictGet, h0] using h)
      exact List.mem_cons_of_mem p this

theorem buildDict_get_sound (labels : List String) (k : String) (v : Nat)
    (h : dictGet (buildOptionDict labels) k = some v) :
    ∃ t, labels.get? v = some t ∧ t ≠ "" ∧ pyNormalizeS t = k := by
  have hmem := dictGet_mem k v _ h
  rcases buildDictGo_entry_sound labels [] 0 (k, v) hmem with h1 | ⟨j, t, hg, hne, hn, hj⟩
  · exact absurd h1 (List.not_mem_nil _)
  · exact ⟨t, by simp only at hj; rw [hj]; simpa using hg, hne, by simpa using hn⟩

theorem dict_keys_eq_dictInsert (d : List (String × Nat)) (k : String) (v : Nat) :
    (dictInsert d k v).map Prod.fst = d.map Prod.fst ∨
    (dictInsert d k v).map Prod.fst = d.map Prod.fst ++ [k] := by
  unfold dictInsert
  by_cases ha : d.any (fun p => p.1 = k)
  · rw [if_pos ha]
    left
    rw [List.map_map]
    apply List.map_congr_left
    intro p _
    by_cases h0 : p.1 = k
    · simp [h0]
    · simp [h0]
  · rw [if_neg ha]
    right
    simp

theorem dictInsert_keys_nodup (d : List (String × Nat)) (k : String) (v : Nat)
    (h : (d.map Prod.fst).Nodup) : ((dictInsert d k v).map Prod.fst).Nodup := by
  unfold dictInsert
  by_cases ha : d.any (fun p => p.1 = k)
  · rw [if_pos ha]
    have : (d.map (fun p => if p.1 = k then (k, v) else p)).map Prod.fst =
        d.map Prod.fst := by
      rw [List.map_map]
      apply List.map_congr_left
      intro p _
      by_cases h0 : p.1 = k
      · simp [h0]
      · simp [h0]
    rw [this]
    exact h
  · rw [if_neg ha]
    have hk : k ∉ d.map Prod.fst := by
      intro hc
      obtain ⟨p, hp, hpe⟩ := List.mem_map.mp hc
      exact ha (List.any_of_mem hp (by simp [hpe]))
    simp only [List.map_append, List.map_cons, List.map_nil]
    exact List.Nodup.append h (List.nodup_singleton k)
      (by simpa [List.disjoint_singleton] using hk)

theorem buildDictGo_keys_nodup :
    ∀ (ls : List String) (d : List (String × Nat)) (i : Nat),
      (d.map Prod.fst).Nodup → ((buildDictGo d i ls).map Prod.fst).Nodup
  | [], _, _, h => h
  | t :: rest, d, i, h => by
    by_cases ht : t ≠ ""
    · show ((buildDictGo (if t ≠ "" then _ else d) (i + 1) rest).map Prod.fst).Nodup
      rw [if_pos ht]
      exact buildDictGo_keys_nodup rest _ (i + 1) (dictInsert_keys_nodup d _ i h)
    · show ((buildDictGo (if t ≠ "" then _ else d) (i + 1) rest).map Prod.fst).Nodup
      rw [if_neg ht]
      exact buildDictGo_keys_nodup rest d (i + 1) h

theorem mem_dictGet (d : List (String × Nat)) (hnd : (d.map Prod.fst).Nodup)
    (p : String × Nat) (h : p ∈ d) : dictGet d p.1 = some p.2 := by
  induction d with
  | nil => exact absurd h (List.not_mem_nil p)
  | cons q rest ih =>
    rcases List.mem_cons.mp h with h1 | h1
    · rw [h1]
      simp [dictGet]
    · have hq : ¬ q.1 = p.1 := by
        intro hc
        have h2 : p.1 ∈ rest.map Prod.fst := List.mem_map_of_mem Prod.fst h1
        rw [← hc] at h2
        exact (List.nodup_cons.mp (by simpa using hnd)).1 h2
      have := ih (List.nodup_cons.mp (by simpa using hnd)).2 h1
      simpa [dictGet, hq] using this

/-- C9: the live-label dictionary is keyed by normalized text, so when two
widgets normalize to the same string only the last is retained: the
dictionary entry for that key has the greatest matching index, the earlier
widget index is unreachable through the dictionary, every dictionary item
with that key carries that one index (so the substring and live-similarity
tiers, which walk the items, can only select it), and the exact tier
resolves that key to it. -/
theorem option_dict_last_wins (labels : List String) (k : String) (i0 j0 : Nat)
    (t0 t1 : String) (hij : i0 < j0)
    (hi : labels.get? i0 = some t0) (hi1 : t0 ≠ "") (hi2 : pyNormalizeS t0 = k)
    (hj : labels.get? j0 = some t1) (hj1 : t1 ≠ "") (hj2 : pyNormalizeS t1 = k) :
    ∃ v, dictGet (buildOptionDict labels) k = some v ∧ j0 ≤ v ∧ v ≠ i0 ∧
      (∃ t, labels.get? v = some t ∧ t ≠ "" ∧ pyNormalizeS t = k) ∧
      (∀ p ∈ buildOptionDict labels, p.1 = k → p.2 = v) ∧
      tier1 k (buildOptionDict labels) = some v := by
  obtain ⟨v, hv, hge⟩ := buildDictGo_get_ge labels [] 0 k j0 t1 hj hj1 hj2
  refine ⟨v, hv, by omega, by omega, buildDict_get_sound labels k v hv, ?_, hv⟩
  intro p hp hpk
  have hnd := buildDictGo_keys_nodup labels [] 0 (by simp)
  have := mem_dictGet _ hnd p hp
  rw [hpk] at this
  rw [this] at hv
  exact Option.some_inj.mp hv

/-- Witness for C9: labels "Red" and "red!" both normalize to "red"; the
dictionary retains widget 1. -/
theorem option_dict_last_wins_witness :
    ∃ v, dictGet (buildOptionDict ["Red", "red!"]) "red" = some v ∧ 1 ≤ v ∧ v ≠ 0 ∧
      (∃ t, ["Red", "red!"].get? v = some t ∧ t ≠ "" ∧ pyNormalizeS t = "red") ∧
      (∀ p ∈ buildOptionDict ["Red", "red!"], p.1 = "red" → p.2 = v) ∧
      tier1 "red" (buildOptionDict ["Red", "red!"]) = some v :=
  option_dict_last_wins ["Red", "red!"] "red" 0 1 "Red" "red!"
    (by decide) (by decide) (by decide) (by decide) (by decide) (by decide) (by decide)

/-! ### Value bounds and the exact tier -/

theorem orElse_eq_some {α : Type} (x : Option α) (f : Unit → Option α) (w : α)
    (h : x.orElse f = some w) : x = some w ∨ (x = none ∧ f () = some w) := by
  cases x with
  | some a => exact Or.inl h
  | none => exact Or.inr ⟨rfl, h⟩

theorem orElse_some {α : Type} (a : α) (f : Unit → Option α) :
    (Option.some a).orElse f = some a := rfl

theorem orElse_none {α : Type} (f : Unit → Option α) :
    (Option.none (α := α)).orElse f = f () := rfl

theorem dict_value_lt (labels : List String) (p : String × Nat)
    (h : p ∈ buildOptionDict labels) : p.2 < labels.length := by
  rcases buildDictGo_entry_sound labels [] 0 p h with h1 | ⟨j, t, hg, _, _, hj⟩
  · exact absurd h1 (List.not_mem_nil p)
  · obtain ⟨hlt, _⟩ := List.get?_eq_some.mp hg
    omega

theorem tier1_lt (labels : List String) (na : String) (w : Nat)
    (h : tier1 na (buildOptionDict labels) = some w) : w < labels.length :=
  dict_value_lt labels (na, w) (dictGet_mem na w _ h)

theorem tier2_lt (labels : List String) (na : String) (w : Nat)
    (h : tier2 na (buildOptionDict labels) = some w) : w < labels.length := by
  unfold tier2 at h
  cases hf : (buildOptionDict labels).find?
      (fun p => pyIn p.1 na || pyIn na p.1) with
  | none => rw [hf] at h; exact Option.noConfusion h
  | some p =>
    rw [hf] at h
    have hv : p.2 = w := by simpa using h
    exact hv ▸ dict_value_lt labels p (List.mem_of_find?_eq_some hf)

theorem tier3Go_lt (labels : List String) (na : String) :
    ∀ (ls : List String) (i w : Nat),
      tier3Go na (buildOptionDict labels) labels.length i ls = some w →
      w < labels.length
  | [], _, _, h => Option.noConfusion h
  | opt :: rest, i, w, h => by
    rw [tier3Go] at h
    by_cases he : pyNormalizeS opt = na
    · rw [if_pos he] at h
      cases hd : dictGet (buildOptionDict labels) (pyNormalizeS opt) with
      | some v =>
        rw [hd] at h
        have hv : v = w := by simpa using h
        exact hv ▸ dict_value_lt labels (pyNormalizeS opt, v) (dictGet_mem _ v _ hd)
      | none =>
        rw [hd] at h
        by_cases hi : i < labels.length
        · rw [if_pos hi] at h
          have : i = w := by simpa using h
          omega
        · rw [if_neg hi] at h
          exact tier3Go_lt labels na rest (i + 1) w h
    · rw [if_neg he] at h
      by_cases hs : (pyIn (pyNormalizeS opt) na || pyIn na (pyNormalizeS opt)) = true
      · rw [if_pos hs] at h
        by_cases hi : i < labels.length
        · rw [if_pos hi] at h
          have : i = w := by simpa using h
          omega
        · rw [if_neg hi] at h
          exact tier3Go_lt labels na rest (i + 1) w h
      · rw [if_neg hs] at h
        exact tier3Go_lt labels na rest (i + 1) w h

theorem tier4Go_lt (labels : List String) (na : String) :
    ∀ (ls : List (String × Nat)) (bs : ℚ) (best : Option Nat) (w : Nat),
      (∀ v, best = some v → v < labels.length) →
      (∀ p ∈ ls, p.2 < labels.length) →
      tier4Go na ls bs best = some w → w < labels.length
  | [], _, best, w, hbest, _, h => hbest w h
  | p :: rest, bs, best, w, hbest, hls, h => by
    rw [tier4Go] at h
    by_cases hc : similarity p.1.data na.data > bs ∧ similarity p.1.data na.data > 3 / 5
    · rw [if_pos hc] at h
      exact tier4Go_lt labels na rest _ _ w
        (fun v hv => by
          have : p.2 = v := by simpa using hv
          exact this ▸ hls p (List.mem_cons_self p rest))
        (fun q hq => hls q (List.mem_cons_of_mem p hq)) h
    · rw [if_neg hc] at h
      exact tier4Go_lt labels na rest _ _ w hbest
        (fun q hq => hls q (List.mem_cons_of_mem p hq)) h

theorem tier5_lt (na : String) (options : List String) (n : Nat) (w : Nat)
    (h : tier5 na options n = some w) : w < n := by
  unfold tier5 at h
  by_cases hc : (tier5Go na 0 options 0 0).1 > 1 / 2 ∧ (tier5Go na 0 options 0 0).2 < n
  · rw [if_pos hc] at h
    have : (tier5Go na 0 options 0 0).2 = w := by simpa using h
    omega
  · rw [if_neg hc] at h
    exact Option.noConfusion h

theorem matchTiers_lt (answer : String) (labels options : List String) (w : Nat)
    (h : matchTiers answer labels options = some w) : w < labels.length := by
  unfold matchTiers at h
  rcases orElse_eq_some _ _ _ h with h4 | ⟨_, h5⟩
  · rcases orElse_eq_some _ _ _ h4 with h3 | ⟨_, h3⟩
    · rcases orElse_eq_some _ _ _ h3 with h2 | ⟨_, h2⟩
      · rcases orElse_eq_some _ _ _ h2 with h1 | ⟨_, h1⟩
        · exact tier1_lt labels _ w h1
        · exact tier2_lt labels _ w h1
      · exact tier3Go_lt labels _ options 0 w h2
    · exact tier4Go_lt labels _ (buildOptionDict labels) 0 none w
        (fun v hv => Option.noConfusion hv)
        (fun p hp => dict_value_lt labels p hp) h3
  · exact tier5_lt _ options labels.length w h5

/-- C1: exact-match tier precedence.  If some live widget has retrievable
text whose normalized form equals the normalized answer, the selection is a
widget whose normalized text equals the normalized answer — no substring or
similarity candidate can take precedence. -/
theorem exact_tier_precedence (answer : String) (labels options : List String)
    (idx : Nat) (t : String)
    (h1 : labels.get? idx = some t) (h2 : t ≠ "")
    (h3 : pyNormalizeS t = pyNormalizeS answer) :
    ∃ w tw, selectOption answer labels options = some w ∧
      labels.get? w = some tw ∧ tw ≠ "" ∧ pyNormalizeS tw = pyNormalizeS answer := by
  obtain ⟨v, hv, _⟩ :=
    buildDictGo_get_ge labels [] 0 (pyNormalizeS answer) idx t h1 h2 h3
  obtain ⟨tw, htw1, htw2, htw3⟩ := buildDict_get_sound labels _ v hv
  refine ⟨v, tw, ?_, htw1, htw2, htw3⟩
  unfold selectOption matchTiers
  have ht1 : tier1 (pyNormalizeS answer) (buildOptionDict labels) = some v := hv
  rw [ht1, orElse_some, orElse_some, orElse_some, orElse_some, orElse_some]

/-- Witness for C1: answer "red!" and labels Red and Blue — widget 0 is
selected by the exact tier. -/
theorem exact_tier_precedence_witness :
    ∃ w tw, selectOption "red!" ["Red", "Blue"] ["Red", "Blue"] = some w ∧
      ["Red", "Blue"].get? w = some tw ∧ tw ≠ "" ∧
      pyNormalizeS tw = pyNormalizeS "red!" :=
  exact_tier_precedence "red!" ["Red", "Blue"] ["Red", "Blue"] 0 "Red"
    (by decide) (by decide) (by decide)

/-- C4: fallback guarantee.  For a nonempty live widget list the matcher
always selects exactly one widget, its index is in range, and when no tier
produced a selection the first widget is selected. -/
theorem fallback_guarantee (answer : String) (labels options : List String)
    (h : labels ≠ []) :
    ∃ w, selectOption answer labels options = some w ∧ w < labels.length ∧
      (matchTiers answer labels options = none → w = 0) := by
  cases hm : matchTiers answer labels options with
  | some w =>
    refine ⟨w, ?_, matchTiers_lt answer labels options w hm, fun hc => ?_⟩
    · unfold selectOption
      rw [hm, orElse_some]
    · exact Option.noConfusion hc
  | none =>
    have hn : labels.length ≠ 0 := fun hc => h (List.length_eq_zero.mp hc)
    refine ⟨0, ?_, Nat.pos_of_ne_zero hn, fun _ => rfl⟩
    unfold selectOption
    rw [hm, orElse_none, if_pos hn]

/-- Witness for C4: the spec's example — answer "crimson" matches no tier
against Red and Blue and the first widget is selected. -/
theorem fallback_guarantee_witness :
    ∃ w, selectOption "crimson" ["Red", "Blue"] ["Red", "Blue"] = some w ∧
      w < (["Red", "Blue"] : List String).length ∧
      (matchTiers "crimson" ["Red", "Blue"] ["Red", "Blue"] = none → w = 0) :=
  fallback_guarantee "crimson" ["Red", "Blue"] ["Red", "Blue"] (by decide)

/-! ### The similarity tiers -/

theorem similarity_nonneg (a b : List Char) : 0 ≤ similarity a b := by
  unfold similarity
  by_cases h : a.length + b.length = 0
  · rw [if_pos h]
    norm_num
  · rw [if_neg h]
    apply div_nonneg
    · positivity
    · positivity

theorem tier4Go_some_of_some (na : String) :
    ∀ (ls : List (String × Nat)) (bs : ℚ) (v : Nat),
      ∃ w, tier4Go na ls bs (some v) = some w
  | [], _, v => ⟨v, rfl⟩
  | p :: rest, bs, v => by
    rw [tier4Go]
    by_cases hc : similarity p.1.data na.data > bs ∧ similarity p.1.data na.data > 3 / 5
    · rw [if_pos hc]
      exact tier4Go_some_of_some na rest _ p.2
    · rw [if_neg hc]
      exact tier4Go_some_of_some na rest bs v

theorem tier4Go_none (na : String) :
    ∀ (ls : List (String × Nat)) (bs : ℚ) (best : Option Nat),
      tier4Go na ls bs best = none →
      best = none ∧ ∀ p ∈ ls,
        ¬(similarity p.1.data na.data > bs ∧ similarity p.1.data na.data > 3 / 5)
  | [], _, _, h => ⟨h, fun p hp => absurd hp (List.not_mem_nil p)⟩
  | p :: rest, bs, best, h => by
    rw [tier4Go] at h
    by_cases hc : similarity p.1.data na.data > bs ∧ similarity p.1.data na.data > 3 / 5
    · rw [if_pos hc] at h
      obtain ⟨w, hw⟩ := tier4Go_some_of_some na rest (similarity p.1.data na.data) p.2
      rw [hw] at h
      exact Option.noConfusion h
    · rw [if_neg hc] at h
      obtain ⟨hb, hall⟩ := tier4Go_none na rest bs best h
      refine ⟨hb, fun q hq => ?_⟩
      rcases List.mem_cons.mp hq with h1 | h1
      · rw [h1]
        exact hc
      · exact hall q h1

theorem tier4Go_max (na : String) :
    ∀ (ls : List (String × Nat)) (bs : ℚ) (best : Option Nat) (w : Nat),
      tier4Go na ls bs best = some w →
      (best = some w ∧ ∀ p ∈ ls,
        similarity p.1.data na.data ≤ bs ∨ similarity p.1.data na.data ≤ 3 / 5) ∨
      (∃ p ∈ ls, p.2 = w ∧ similarity p.1.data na.data > 3 / 5 ∧
        bs ≤ similarity p.1.data na.data ∧
        ∀ q ∈ ls, similarity q.1.data na.data ≤ similarity p.1.data na.data ∨
          similarity q.1.data na.data ≤ 3 / 5)
  | [], _, _, w, h => Or.inl ⟨h, fun p hp => absurd hp (List.not_mem_nil p)⟩
  | p :: rest, bs, best, w, h => by
    rw [tier4Go] at h
    by_cases hc : similarity p.1.data na.data > bs ∧ similarity p.1.data na.data > 3 / 5
    · rw [if_pos hc] at h
      rcases tier4Go_max na rest _ _ w h with ⟨hb, hall⟩ | ⟨q, hq, hq2, hq3, hq4, hq5⟩
      · have hw : p.2 = w := by simpa using hb
        refine Or.inr ⟨p, List.mem_cons_self p rest, hw, hc.2, le_of_lt hc.1,
          fun q hq => ?_⟩
        rcases List.mem_cons.mp hq with h1 | h1
        · rw [h1]
          exact Or.inl (le_refl _)
        · exact hall q h1
      · refine Or.inr ⟨q, List.mem_cons_of_mem p hq, hq2, hq3,
          le_trans (le_of_lt hc.1) hq4, fun r hr => ?_⟩
        rcases List.mem_cons.mp hr with h1 | h1
        · rw [h1]
          exact Or.inl hq4
        · exact hq5 r h1
    · rw [if_neg hc] at h
      have hc2 : similarity p.1.data na.data ≤ bs ∨
          similarity p.1.data na.data ≤ 3 / 5 := by
        rcases not_and_or.mp hc with h1 | h1
        · exact Or.inl (not_lt.mp h1)
        · exact Or.inr (not_lt.mp h1)
      rcases tier4Go_max na rest bs best w h with ⟨hb, hall⟩ | ⟨q, hq, hq2, hq3, hq4, hq5⟩
      · refine Or.inl ⟨hb, fun q hq => ?_⟩
        rcases List.mem_cons.mp hq with h1 | h1
        · rw [h1]
          exact hc2
        · exact hall q h1
      · refine Or.inr ⟨q, List.mem_cons_of_mem p hq, hq2, hq3, hq4, fun r hr => ?_⟩
        rcases List.mem_cons.mp hr with h1 | h1
        · rw [h1]
          rcases hc2 with h2 | h2
          · exact Or.inl (le_trans h2 hq4)
          · exact Or.inr h2
        · exact hq5 r h1

theorem tier4_max (na : String) (d : List (String × Nat)) (w : Nat)
    (h : tier4 na d = some w) :
    ∃ p ∈ d, p.2 = w ∧ similarity p.1.data na.data > 3 / 5 ∧
      ∀ q ∈ d, similarity q.1.data na.data ≤ similarity p.1.data na.data := by
  rcases tier4Go_max na d 0 none w h with ⟨hb, _⟩ | ⟨p, hp, hw, hfloor, _, hmax⟩
  · exact Option.noConfusion hb
  · refine ⟨p, hp, hw, hfloor, fun q hq => ?_⟩
    rcases hmax q hq with h1 | h1
    · exact h1
    · linarith

theorem tier4_none_floor (na : String) (d : List (String × Nat))
    (h : tier4 na d = none) :
    ∀ p ∈ d, similarity p.1.data na.data ≤ 3 / 5 := by
  obtain ⟨_, h2⟩ := tier4Go_none na d 0 none h
  intro p hp
  rcases not_and_or.mp (h2 p hp) with h1 | h1
  · have hnn := similarity_nonneg p.1.data na.data
    have := not_lt.mp h1
    linarith
  · exact not_lt.mp h1

theorem tier5Go_spec (na : String) :
    ∀ (ls : List String) (i : Nat) (bs : ℚ) (bi : Nat),
      bs ≤ (tier5Go na i ls bs bi).1 ∧
      (∀ o t, ls.get? o = some t →
        similarity (pyNormalizeS t).data na.data ≤ (tier5Go na i ls bs bi).1) ∧
      (((tier5Go na i ls bs bi).1 = bs ∧ (tier5Go na i ls bs bi).2 = bi) ∨
        ∃ o t, ls.get? o = some t ∧ (tier5Go na i ls bs bi).2 = i + o ∧
          similarity (pyNormalizeS t).data na.data = (tier5Go na i ls bs bi).1)
  | [], i, bs, bi => by
    refine ⟨le_refl _, fun o t ho => ?_, Or.inl ⟨rfl, rfl⟩⟩
    simp at ho
  | t0 :: rest, i, bs, bi => by
    rw [tier5Go]
    by_cases hc : similarity (pyNormalizeS t0).data na.data > bs
    · rw [if_pos hc]
      obtain ⟨hge, hall, hthird⟩ :=
        tier5Go_spec na rest (i + 1) (similarity (pyNormalizeS t0).data na.data) i
      refine ⟨le_trans (le_of_lt hc) hge, fun o t ho => ?_, ?_⟩
      · cases o with
        | zero =>
          have ht : t0 = t := by simpa using ho
          rw [← ht]
          exact hge
        | succ o0 => exact hall o0 t (by simpa using ho)
      · rcases hthird with ⟨hs, hb⟩ | ⟨o, t, ho, hb, hs⟩
        · refine Or.inr ⟨0, t0, rfl, by omega, ?_⟩
          rw [hs]
        · exact Or.inr ⟨o + 1, t, by simpa using ho, by omega, hs⟩
    · rw [if_neg hc]
      obtain ⟨hge, hall, hthird⟩ := tier5Go_spec na rest (i + 1) bs bi
      refine ⟨hge, fun o t ho => ?_, ?_⟩
      · cases o with
        | zero =>
          have ht : t0 = t := by simpa using ho
          rw [← ht]
          exact le_trans (not_lt.mp hc) hge
        | succ o0 => exact hall o0 t (by simpa using ho)
      · rcases hthird with hl | ⟨o, t, ho, hb, hs⟩
        · exact Or.inl hl
        · exact Or.inr ⟨o + 1, t, by simpa using ho, by omega, hs⟩

theorem tier5_max (na : String) (options : List String) (n : Nat) (w : Nat)
    (h : tier5 na options n = some w) :
    w < n ∧ ∃ t, options.get? w = some t ∧
      similarity (pyNormalizeS t).data na.data > 1 / 2 ∧
      ∀ j tj, options.get? j = some tj →
        similarity (pyNormalizeS tj).data na.data ≤
          similarity (pyNormalizeS t).data na.data := by
  unfold tier5 at h
  by_cases hc : (tier5Go na 0 options 0 0).1 > 1 / 2 ∧ (tier5Go na 0 options 0 0).2 < n
  · rw [if_pos hc] at h
    have hw : (tier5Go na 0 options 0 0).2 = w := by simpa using h
    obtain ⟨_, hall, hthird⟩ := tier5Go_spec na options 0 0 0
    rcases hthird with ⟨hs, _⟩ | ⟨o, t, ho, hb, hs⟩
    · rw [hs] at hc
      norm_num at hc
    · refine ⟨by omega, t, ?_, ?_, ?_⟩
      · rw [← hw, hb]
        simpa using ho
      · rw [hs]
        exact hc.1
      · intro j tj hj
        rw [hs]
        exact hall j tj hj
  · rw [if_neg hc] at h
    exact Option.noConfusion h

/-- C6: similarity-tier floors.  When the exact, substring and original-
options tiers all fail, the remaining resolution is the live-similarity
tier followed by the positional one; the live tier selects only a
maximum-scoring dictionary item and only above the 0.6 floor; the
positional tier is consulted only when no dictionary item exceeds that
floor, and selects only a maximum-scoring original option whose score
exceeds 0.5 and whose position is within the live widget range. -/
theorem similarity_tier_floors (answer : String) (labels options : List String)
    (h1 : tier1 (pyNormalizeS answer) (buildOptionDict labels) = none)
    (h2 : tier2 (pyNormalizeS answer) (buildOptionDict labels) = none)
    (h3 : tier3 (pyNormalizeS answer) (buildOptionDict labels)
      labels.length options = none) :
    matchTiers answer labels options =
      (tier4 (pyNormalizeS answer) (buildOptionDict labels)).orElse
        (fun _ => tier5 (pyNormalizeS answer) options labels.length) ∧
    (∀ w, tier4 (pyNormalizeS answer) (buildOptionDict labels) = some w →
      ∃ p ∈ buildOptionDict labels, p.2 = w ∧
        similarity p.1.data (pyNormalizeS answer).data > 3 / 5 ∧
        ∀ q ∈ buildOptionDict labels,
          similarity q.1.data (pyNormalizeS answer).data ≤
            similarity p.1.data (pyNormalizeS answer).data) ∧
    (tier4 (pyNormalizeS answer) (buildOptionDict labels) = none →
      ∀ p ∈ buildOptionDict labels,
        similarity p.1.data (pyNormalizeS answer).data ≤ 3 / 5) ∧
    (∀ w, tier5 (pyNormalizeS answer) options labels.length = some w →
      w < labels.length ∧ ∃ t, options.get? w = some t ∧
        similarity (pyNormalizeS t).data (pyNormalizeS answer).data > 1 / 2 ∧
        ∀ j tj, options.get? j = some tj →
          similarity (pyNormalizeS tj).data (pyNormalizeS answer).data ≤
            similarity (pyNormalizeS t).data (pyNormalizeS answer).data) := by
  refine ⟨?_, fun w hw => tier4_max _ _ w hw, tier4_none_floor _ _,
    fun w hw => tier5_max _ options labels.length w hw⟩
  unfold matchTiers
  rw [h1, orElse_none, h2, orElse_none, h3, orElse_none]

/-- Witness for C6: answer "zzz" against labels and options Red and Blue —
tiers 1-3 all fail on this input. -/
theorem similarity_tier_floors_witness :
    matchTiers "zzz" ["Red", "Blue"] ["Red", "Blue"] =
      (tier4 (pyNormalizeS "zzz") (buildOptionDict ["Red", "Blue"])).orElse
        (fun _ => tier5 (pyNormalizeS "zzz") ["Red", "Blue"]
          (["Red", "Blue"] : List String).length) ∧
    (∀ w, tier4 (pyNormalizeS "zzz") (buildOptionDict ["Red", "Blue"]) = some w →
      ∃ p ∈ buildOptionDict ["Red", "Blue"], p.2 = w ∧
        similarity p.1.data (pyNormalizeS "zzz").data > 3 / 5 ∧
        ∀ q ∈ buildOptionDict ["Red", "Blue"],
          similarity q.1.data (pyNormalizeS "zzz").data ≤
            similarity p.1.data (pyNormalizeS "zzz").data) ∧
    (tier4 (pyNormalizeS "zzz") (buildOptionDict ["Red", "Blue"]) = none →
      ∀ p ∈ buildOptionDict ["Red", "Blue"],
        similarity p.1.data (pyNormalizeS "zzz").data ≤ 3 / 5) ∧
    (∀ w, tier5 (pyNormalizeS "zzz") ["Red", "Blue"]
        (["Red", "Blue"] : List String).length = some w →
      w < (["Red", "Blue"] : List String).length ∧
      ∃ t, (["Red", "Blue"] : List String).get? w = some t ∧
        similarity (pyNormalizeS t).data (pyNormalizeS "zzz").data > 1 / 2 ∧
        ∀ j tj, (["Red", "Blue"] : List String).get? j = some tj →
          similarity (pyNormalizeS tj).data (pyNormalizeS "zzz").data ≤
            similarity (pyNormalizeS t).data (pyNormalizeS "zzz").data) :=
  similarity_tier_floors "zzz" ["Red", "Blue"] ["Red", "Blue"]
    (by decide) (by decide) (by decide)

/-! ## extract_questions_from_fb_data (src/app.py lines 45-98)

The pipeline: regex search for the embedded assignment, escape-sequence
replacement, C0 control-character stripping, `json.loads`, navigation to
`data[1][1]` guarded by `except (IndexError, TypeError)`, iteration over the
entries, and per-entry harvesting.  Uncaught Python exceptions (a KeyError
from subscripting an object, a TypeError from iterating a non-iterable —
the `for` loop is outside the `try`) are modelled as `Except.error`. -/

/-- A parsed generic JSON value.  Numbers keep their lexeme: the extraction
code never inspects numeric values, only their not-being-a-string-or-list. -/
inductive JVal where
  | null : JVal
  | bool (b : Bool) : JVal
  | num (raw : String) : JVal
  | str (s : String) : JVal
  | arr (items : List JVal) : JVal
  | obj (fields : List (String × JVal)) : JVal

instance : Inhabited JVal := ⟨JVal.null⟩

/-- The Python exceptions live at this boundary. -/
inductive PyErr where
  | indexError : PyErr
  | typeError : PyErr
  | keyError : PyErr
deriving Repr, DecidableEq

/-- An extracted question record. -/
structure Question where
  question_text : String
  options : List String
deriving Repr, DecidableEq

/-- Python subscript `v[i]` for a nonnegative integer on a parsed JSON
value: list indexing (IndexError out of range), string indexing (a one-char
string, IndexError out of range), object indexing (KeyError — JSON object
keys are strings, so an integer key always misses), TypeError otherwise. -/
def pyIndex (v : JVal) (i : Nat) : Except PyErr JVal :=
  match v with
  | JVal.arr items =>
    match items.get? i with
    | some x => Except.ok x
    | none => Except.error PyErr.indexError
  | JVal.str s =>
    match s.data.get? i with
    | some c => Except.ok (JVal.str ⟨[c]⟩)
    | none => Except.error PyErr.indexError
  | JVal.obj _ => Except.error PyErr.keyError
  | _ => Except.error PyErr.typeError

/-- Python iteration over a parsed JSON value: a list yields its items, a
string its characters, a dict its keys; anything else raises TypeError. -/
def pyIter (v : JVal) : Except PyErr (List JVal) :=
  match v with
  | JVal.arr items => Except.ok items
  | JVal.str s => Except.ok (s.data.map (fun c => JVal.str ⟨[c]⟩))
  | JVal.obj fields => Except.ok (fields.map (fun p => JVal.str p.1))
  | _ => Except.error PyErr.typeError

/-- Option harvesting for one entry (lines 87-93): only when the entry has a
5th element that is a list; iterate its blocks, and for each block that is a
list whose 2nd element is a list, collect the 1st element of each item of
that list that is a list starting with a string. -/
def entryChoices (fields : List JVal) : List String :=
  match fields.get? 4 with
  | some (JVal.arr blocks) =>
    blocks.flatMap (fun block =>
      match block with
      | JVal.arr bitems =>
        match bitems.get? 1 with
        | some (JVal.arr opts) =>
          opts.filterMap (fun opt =>
            match opt with
            | JVal.arr (JVal.str s :: _) => some s
            | _ => none)
        | _ => []
      | _ => [])
  | _ => []

/-- One iteration of the entry loop of lines 79-98: skip entries that are
not lists of length at least 2; the question text is entry index 1 when it
is a string, and the entry is skipped when that is missing or the string is
empty; the kept text is then stripped (with no emptiness re-check) and
options are harvested. -/
def entryRecord (item : JVal) : Option Question :=
  match item with
  | JVal.arr fields =>
    if fields.length < 2 then none
    else
      match fields.get? 1 with
      | some (JVal.str s) =>
        if s = "" then none
        else some ⟨pyStripS s, entryChoices fields⟩
      | _ => none
  | _ => none

/-- The entry loop of lines 79-98 over all entries. -/
def processEntries (entries : List JVal) : List Question :=
  entries.filterMap entryRecord

/-- Lines 73-98 after a successful parse: navigate `data[1][1]` inside
`try/except (IndexError, TypeError)` (those two yield the empty result; a
KeyError propagates), then iterate the navigated value (a TypeError from a
non-iterable is outside the `try` and propagates), then process entries. -/
def extractCore (data : JVal) : Except PyErr (List Question) :=
  match (pyIndex data 1).bind (fun d1 => pyIndex d1 1) with
  | Except.error PyErr.indexError => Except.ok []
  | Except.error PyErr.typeError => Except.ok []
  | Except.error e => Except.error e
  | Except.ok qd =>
    match pyIter qd with
    | Except.error e => Except.error e
    | Except.ok entries => Except.ok (processEntries entries)

/-- Python `str.replace(pat, repl)` with nonempty `pat`: scan left to right,
replacing non-overlapping occurrences. -/
def replaceAllGo (pat repl : List Char) : Nat → List Char → List Char
  | 0, s => s
  | _ + 1, [] => []
  | fuel + 1, c :: rest =>
    if List.isPrefixOf pat (c :: rest) then
      repl ++ replaceAllGo pat repl fuel (List.drop (pat.length - 1) rest)
    else c :: replaceAllGo pat repl fuel rest

/-- Python `str.replace` entry point. -/
def replaceAll (pat repl s : List Char) : List Char :=
  replaceAllGo pat repl s.length s

/-- The replacement table of lines 56-64 applied in insertion order.  The
patterns are the raw Python strings: two backslashes followed by n / u003c /
u003e / u0026 / a double quote. -/
def applyReplacements (s : List Char) : List Char :=
  replaceAll "\\\\\"".data "\"".data
    (replaceAll "\\\\u0026".data "&".data
      (replaceAll "\\\\u003e".data ">".data
        (replaceAll "\\\\u003c".data "<".data
          (replaceAll "\\\\n".data "\n".data s))))

/-- The control characters removed by line 65: 0x00-0x08, 0x0B-0x1F, 0x7F. -/
def isCtlStripped (c : Char) : Bool :=
  c.toNat ≤ 8 || (11 ≤ c.toNat && c.toNat ≤ 31) || c.toNat = 127

/-- Line 65: strip the control characters from the captured literal. -/
def stripCtl (s : List Char) : List Char := s.filter (fun c => !(isCtlStripped c))

/-! ### A strict JSON parser (the `json.loads` model)

Whitespace is the four JSON whitespace characters; strings reject raw
control characters (strict mode) and decode the standard escapes; a
surrogate pair in `\uXXXX` escapes is combined, and a lone surrogate (which
Python would keep as an unpaired surrogate) is mapped to U+FFFD, the one
place the model departs from CPython (no claim depends on it); numbers
follow the JSON grammar and keep their lexeme; parsing must consume the
whole input. -/

/-- JSON inter-token whitespace. -/
def jsonWS (c : Char) : Bool := c = ' ' || c = '\t' || c = '\n' || c = '\r'

/-- Skip inter-token whitespace. -/
def skipWS (s : List Char) : List Char := s.dropWhile jsonWS

/-- Hex digit value. -/
def hexVal (c : Char) : Option Nat :=
  if '0' ≤ c ∧ c ≤ '9' then some (c.toNat - 48)
  else if 'a' ≤ c ∧ c ≤ 'f' then some (c.toNat - 87)
  else if 'A' ≤ c ∧ c ≤ 'F' then some (c.toNat - 55)
  else none

/-- Four hex digits. -/
def hex4 (s : List Char) : Option (Nat × List Char) :=
  match s with
  | c1 :: c2 :: c3 :: c4 :: rest =>
    match hexVal c1, hexVal c2, hexVal c3, hexVal c4 with
    | some h1, some h2, some h3, some h4 =>
      some (h1 * 4096 + h2 * 256 + h3 * 16 + h4, rest)
    | _, _, _, _ => none
  | _ => none

/-- Decode one `\u` escape, combining a surrogate pair when present; a lone
surrogate becomes U+FFFD. -/
def parseUEscape (s : List Char) : Option (Char × List Char) :=
  match hex4 s with
  | none => none
  | some (code, rest) =>
    if code < 55296 ∨ 57344 ≤ code then some (Char.ofNat code, rest)
    else if code < 56320 then
      match rest with
      | '\\' :: 'u' :: rest2 =>
        match hex4 rest2 with
        | some (low, rest3) =>
          if 56320 ≤ low ∧ low < 57344 then
            some (Char.ofNat (65536 + (code - 55296) * 1024 + (low - 56320)), rest3)
          else some ('\ufffd', rest)
        | none => some ('\ufffd', rest)
      | _ => some ('\ufffd', rest)
    else some ('\ufffd', rest)

/-- String body after the opening quote; strict mode: raw control characters
below 0x20 are rejected. -/
def parseStringBody : Nat → List Char → Option (List Char × List Char)
  | 0, _ => none
  | _ + 1, [] => none
  | fuel + 1, c :: rest =>
    if c = '"' then some ([], rest)
    else if c = '\\' then
      match rest with
      | [] => none
      | e :: rest2 =>
        if e = 'u' then
          match parseUEscape rest2 with
          | some (ch, rest3) =>
            (parseStringBody fuel rest3).map (fun p => (ch :: p.1, p.2))
          | none => none
        else
          match
            (if e = '"' then some '"'
             else if e = '\\' then some '\\'
             else if e = '/' then some '/'
             else if e = 'b' then some '\x08'
             else if e = 'f' then some '\x0c'
             else if e = 'n' then some '\n'
             else if e = 'r' then some '\r'
             else if e = 't' then some '\t'
             else none) with
          | some ch => (parseStringBody fuel rest2).map (fun p => (ch :: p.1, p.2))
          | none => none
    else if c.toNat < 32 then none
    else (parseStringBody fuel rest).map (fun p => (c :: p.1, p.2))

/-- JSON number lexeme: optional minus, `0` or a nonzero-led digit run,
optional fraction, optional exponent. -/
def parseNumber (s : List Char) : Option (List Char × List Char) :=
  let afterSign : List Char × List Char :=
    match s with
    | '-' :: rest => (['-'], rest)
    | _ => ([], s)
  match afterSign.2 with
  | [] => none
  | c :: rest =>
    if c = '0' ∨ ('1' ≤ c ∧ c ≤ '9') then
      let intPart : List Char × List Char :=
        if c = '0' then ([c], rest)
        else (c :: rest.takeWhile Char.isDigit, rest.dropWhile Char.isDigit)
      let fracPart : Option (List Char × List Char) :=
        match intPart.2 with
        | '.' :: frest =>
          match frest.takeWhile Char.isDigit with
          | [] => none
          | ds => some ('.' :: ds, frest.dropWhile Char.isDigit)
        | _ => some ([], intPart.2)
      match fracPart with
      | none => none
      | some fp =>
        let expPart : Option (List Char × List Char) :=
          match fp.2 with
          | e :: erest =>
            if e = 'e' ∨ e = 'E' then
              let signedRest : List Char × List Char :=
                match erest with
                | '+' :: r => (['+'], r)
                | '-' :: r => (['-'], r)
                | _ => ([], erest)
              match signedRest.2.takeWhile Char.isDigit with
              | [] => none
              | ds => some (e :: signedRest.1 ++ ds, signedRest.2.dropWhile Char.isDigit)
            else some ([], fp.2)
          | [] => some ([], fp.2)
        match expPart with
        | none => none
        | some ep => some (afterSign.1 ++ intPart.1 ++ fp.1 ++ ep.1, ep.2)
    else none

mutual

/-- Parse one JSON value (leading whitespace allowed). -/
def parseValue (fuel : Nat) (s : List Char) : Option (JVal × List Char) :=
  match fuel with
  | 0 => none
  | fuel' + 1 =>
    match skipWS s with
    | [] => none
    | c :: rest =>
      if c = '"' then
        match parseStringBody (rest.length + 1) rest with
        | some (content, r2) => some (JVal.str ⟨content⟩, r2)
        | none => none
      else if c = '[' then
        match skipWS rest with
        | ']' :: r2 => some (JVal.arr [], r2)
        | s2 =>
          match parseValue fuel' s2 with
          | some (v, r2) =>
            match parseArrayTail fuel' r2 with
            | some (vs, r3) => some (JVal.arr (v :: vs), r3)
            | none => none
          | none => none
      else if c = '\x7b' then
        match skipWS rest with
        | '\x7d' :: r2 => some (JVal.obj [], r2)
        | s2 =>
          match parseMember fuel' s2 with
          | some (kv, r2) =>
            match parseObjTail fuel' r2 with
            | some (kvs, r3) => some (JVal.obj (kv :: kvs), r3)
            | none => none
          | none => none
      else if List.isPrefixOf "true".data (c :: rest) then
        some (JVal.bool true, (c :: rest).drop 4)
      else if List.isPrefixOf "false".data (c :: rest) then
        some (JVal.bool false, (c :: rest).drop 5)
      else if List.isPrefixOf "null".data (c :: rest) then
        some (JVal.null, (c :: rest).drop 4)
      else
        match parseNumber (c :: rest) with
        | some (lex, r2) => some (JVal.num ⟨lex⟩, r2)
        | none => none

/-- After a value inside an array: a comma and another value, or the
closing bracket. -/
def parseArrayTail (fuel : Nat) (s : List Char) : Option (List JVal × List Char) :=
  match fuel with
  | 0 => none
  | fuel' + 1 =>
    match skipWS s with
    | ',' :: r =>
      match parseValue fuel' r with
      | some (v, r2) =>
        match parseArrayTail fuel' r2 with
        | some (vs, r3) => some (v :: vs, r3)
        | none => none
      | none => none
    | ']' :: r => some ([], r)
    | _ => none

/-- One `"key": value` member. -/
def parseMember (fuel : Nat) (s : List Char) : Option ((String × JVal) × List Char) :=
  match fuel with
  | 0 => none
  | fuel' + 1 =>
    match skipWS s with
    | '"' :: rest =>
      match parseStringBody (rest.length + 1) rest with
      | some (key, r2) =>
        match skipWS r2 with
        | ':' :: r3 =>
          match parseValue fuel' r3 with
          | some (v, r4) => some ((⟨key⟩, v), r4)
          | none => none
        | _ => none
      | none => none
    | _ => none

/-- After a member inside an object: a comma and another member, or the
closing brace. -/
def parseObjTail (fuel : Nat) (s : List Char) : Option (List (String × JVal) × List Char) :=
  match fuel with
  | 0 => none
  | fuel' + 1 =>
    match skipWS s with
    | ',' :: r =>
      match parseMember fuel' r with
      | some (kv, r2) =>
        match parseObjTail fuel' r2 with
        | some (kvs, r3) => some (kv :: kvs, r3)
        | none => none
      | none => none
    | '\x7d' :: r => some ([], r)
    | _ => none

end

/-- `json.loads`: parse one value and require only whitespace after it. -/
def jsonParse (s : List Char) : Option JVal :=
  match parseValue (s.length + 1) s with
  | some (v, rest) => if skipWS rest = [] then some v else none
  | none => none

/-! ### The regex search of line 50 -/

/-- The lazy captured tail: scan for the first `]` that is immediately
followed by the literal text of a semicolon and a closing script tag,
returning everything up to and including that `]`. -/
def findCloseBr : Nat → List Char → Option (List Char)
  | 0, _ => none
  | _ + 1, [] => none
  | fuel + 1, c :: rest =>
    if c = ']' ∧ List.isPrefixOf ";</script>".data rest then some [']']
    else
      match findCloseBr fuel rest with
      | some g => some (c :: g)
      | none => none

/-- Attempt the pattern at this position: literal `var`, whitespace (one or
more), the variable name, optional whitespace, `=`, optional whitespace, and
the lazily captured bracketed literal (DOTALL: any character matches). -/
def matchFBAt (s : List Char) : Option (List Char) :=
  if List.isPrefixOf "var".data s then
    let s1 := s.drop 3
    if (s1.takeWhile pySpace).length = 0 then none
    else
      let s2 := s1.dropWhile pySpace
      if List.isPrefixOf "FB_PUBLIC_LOAD_DATA_".data s2 then
        match (s2.drop 20).dropWhile pySpace with
        | '=' :: s4 =>
          match s4.dropWhile pySpace with
          | '[' :: s6 =>
            match findCloseBr s6.length s6 with
            | some g => some ('[' :: g)
            | none => none
          | _ => none
        | _ => none
      else none
  else none

/-- `re.search`: the match at the leftmost position where one exists. -/
def fbSearch : List Char → Option (List Char)
  | [] => none
  | c :: rest =>
    match matchFBAt (c :: rest) with
    | some g => some g
    | none => fbSearch rest

/-- extract_questions_from_fb_data (lines 45-98): absent marker and parse
failure return the empty list (with a Streamlit error, not an exception);
the rest is `extractCore`. -/
def extract_questions_from_fb_data (html : String) : Except PyErr (List Question) :=
  match fbSearch html.data with
  | none => Except.ok []
  | some raw =>
    match jsonParse (stripCtl (applyReplacements raw)) with
    | none => Except.ok []
    | some data => extractCore data

/-! ### Theorems about extraction (claims C2 and C3) -/

theorem entryRecord_some :
    ∀ (item : JVal) (q : Question), entryRecord item = some q →
      ∃ fields s, item = JVal.arr fields ∧ 2 ≤ fields.length ∧
        fields.get? 1 = some (JVal.str s) ∧ s ≠ "" ∧
        q.question_text = pyStripS s ∧ q.options = entryChoices fields
  | JVal.null, _, h => Option.noConfusion h
  | JVal.bool _, _, h => Option.noConfusion h
  | JVal.num _, _, h => Option.noConfusion h
  | JVal.str _, _, h => Option.noConfusion h
  | JVal.obj _, _, h => Option.noConfusion h
  | JVal.arr fields, q, h => by
    have h' : (if fields.length < 2 then none
        else
          match fields.get? 1 with
          | some (JVal.str s) =>
            if s = "" then none
            else some (⟨pyStripS s, entryChoices fields⟩ : Question)
          | _ => none) = some q := h
    by_cases hlen : fields.length < 2
    · rw [if_pos hlen] at h'
      exact Option.noConfusion h'
    · rw [if_neg hlen] at h'
      cases hget : fields.get? 1 with
      | none =>
        rw [hget] at h'
        exact Option.noConfusion h'
      | some v =>
        rw [hget] at h'
        cases v with
        | str s =>
          have h2 : (if s = "" then none
              else some (⟨pyStripS s, entryChoices fields⟩ : Question)) = some q := h'
          by_cases hs : s = ""
          · rw [if_pos hs] at h2
            exact Option.noConfusion h2
          · rw [if_neg hs] at h2
            have hq := Option.some_inj.mp h2
            exact ⟨fields, s, rfl, by omega, hget, hs, by rw [← hq], by rw [← hq]⟩
        | null => exact Option.noConfusion h'
        | bool b => exact Option.noConfusion h'
        | num r => exact Option.noConfusion h'
        | arr l => exact Option.noConfusion h'
        | obj l => exact Option.noConfusion h'

/-- C2, amended: every extracted record's question text is the stripped form
of an entry text that was a nonempty string before stripping — entries with
missing, non-string or empty text are skipped, but a whitespace-only text is
not skipped and yields a record whose question_text is empty. -/
theorem question_text_source (entries : List JVal) (q : Question)
    (h : q ∈ processEntries entries) :
    ∃ fields s, JVal.arr fields ∈ entries ∧ 2 ≤ fields.length ∧
      fields.get? 1 = some (JVal.str s) ∧ s ≠ "" ∧
      q.question_text = pyStripS s := by
  obtain ⟨item, hmem, hfm⟩ := List.mem_filterMap.mp h
  obtain ⟨fields, s, hitem, hlen, hget, hne, htext, _⟩ := entryRecord_some item q hfm
  exact ⟨fields, s, hitem ▸ hmem, hlen, hget, hne, htext⟩

/-- Witness for the amended C2 at a concrete input: one entry with text
" Hi " produces the record with text "Hi". -/
theorem question_text_source_witness :
    ∃ fields s,
      JVal.arr fields ∈ [JVal.arr [JVal.num "0", JVal.str " Hi "]] ∧
      2 ≤ fields.length ∧ fields.get? 1 = some (JVal.str s) ∧ s ≠ "" ∧
      (⟨"Hi", []⟩ : Question).question_text = pyStripS s :=
  question_text_source [JVal.arr [JVal.num "0", JVal.str " Hi "]] ⟨"Hi", []⟩
    (by decide)

/-- C2, counterexample to the claim as stated: an entry whose text is
whitespace-only is not skipped; extraction returns a record whose
question_text is the empty string. -/
theorem extraction_empty_text_counterexample :
    extract_questions_from_fb_data
        "var FB_PUBLIC_LOAD_DATA_ = [0,[0,[[0,\"   \"]]]];</script>" =
      Except.ok [⟨"", []⟩] ∧ (⟨"", []⟩ : Question).question_text = "" :=
  ⟨rfl, rfl⟩

/-- C3, counterexample to the claim as stated: when the navigated
`data[1][1]` is a plain number, the `for` loop over it — outside the
`try/except` — raises an uncaught TypeError, so extraction raises past its
boundary instead of returning the empty sequence. -/
theorem extraction_raises_counterexample :
    extract_questions_from_fb_data
        "var FB_PUBLIC_LOAD_DATA_ = [0,[0,5]];</script>" =
      Except.error PyErr.typeError := rfl

/-- C3, amended: extraction returns the empty list when the marker is
absent, when the cleaned literal fails to parse, and when navigating
`data[1][1]` raises IndexError or TypeError; but a KeyError from indexing an
object, or a TypeError from iterating a non-iterable navigated value, is not
caught and propagates. -/
theorem extraction_boundary (html : String) :
    (fbSearch html.data = none → extract_questions_from_fb_data html = Except.ok []) ∧
    (∀ raw, fbSearch html.data = some raw →
      jsonParse (stripCtl (applyReplacements raw)) = none →
      extract_questions_from_fb_data html = Except.ok []) ∧
    (∀ raw data, fbSearch html.data = some raw →
      jsonParse (stripCtl (applyReplacements raw)) = some data →
      ((pyIndex data 1).bind (fun d1 => pyIndex d1 1) = Except.error PyErr.indexError ∨
        (pyIndex data 1).bind (fun d1 => pyIndex d1 1) = Except.error PyErr.typeError) →
      extract_questions_from_fb_data html = Except.ok []) := by
  refine ⟨fun h => ?_, fun raw hr hp => ?_, fun raw data hr hp hnav => ?_⟩
  · unfold extract_questions_from_fb_data
    rw [h]
  · unfold extract_questions_from_fb_data
    rw [hr]
    show (match jsonParse (stripCtl (applyReplacements raw)) with
      | none => Except.ok []
      | some data => extractCore data) = Except.ok []
    rw [hp]
  · unfold extract_questions_from_fb_data
    rw [hr]
    show (match jsonParse (stripCtl (applyReplacements raw)) with
      | none => Except.ok []
      | some data => extractCore data) = Except.ok []
    rw [hp]
    show extractCore data = Except.ok []
    unfold extractCore
    rcases hnav with h1 | h1
    · rw [h1]
    · rw [h1]

/-- Witness for the amended C3: all three guarded failure modes at concrete
inputs — no marker, malformed literal, out-of-range navigation. -/
theorem extraction_boundary_witness :
    extract_questions_from_fb_data "no marker here" = Except.ok [] ∧
    extract_questions_from_fb_data
      "var FB_PUBLIC_LOAD_DATA_ = [0,,];</script>" = Except.ok [] ∧
    extract_questions_from_fb_data
      "var FB_PUBLIC_LOAD_DATA_ = [0,[0]];</script>" = Except.ok [] :=
  ⟨(extraction_boundary "no marker here").1 rfl,
   (extraction_boundary "var FB_PUBLIC_LOAD_DATA_ = [0,,];</script>").2.1
     "[0,,]".data rfl rfl,
   (extraction_boundary "var FB_PUBLIC_LOAD_DATA_ = [0,[0]];</script>").2.2
     "[0,[0]]".data (JVal.arr [JVal.num "0", JVal.arr [JVal.num "0"]])
     rfl rfl (Or.inl rfl)⟩

/-! ## The fill_form driver (src/app.py lines 184-395)

One question container exposes the four option-widget selector results and
the text-input selector results; per question the driver branches on the
record's options, and the side effects (clicks, keystrokes, Streamlit
messages) are reified as an action trace.  The driver never aborts on a
per-question failure; it truncates when records outnumber containers, and
returns failure only when no containers are located. -/

/-- A text-entry element: its identity and whether it is an `input` with
`type='text'` (the CSS selector `input` matches every input element, the
typed selector only those). -/
structure TextElem where
  id : Nat
  isTextType : Bool
deriving Repr, DecidableEq

/-- A question container as the driver queries it. -/
structure Container where
  radios : List OptWidget
  labelElems : List OptWidget
  radioContainers : List OptWidget
  wrapperLabels : List OptWidget
  inputs : List TextElem
  textareas : List Nat
deriving Repr, DecidableEq

/-- The selector cascade of lines 221-227: radio divs, then labels, then
material radio containers, then wrapper labels — first nonempty wins. -/
def optionElements (c : Container) : List OptWidget :=
  if c.radios ≠ [] then c.radios
  else if c.labelElems ≠ [] then c.labelElems
  else if c.radioContainers ≠ [] then c.radioContainers
  else c.wrapperLabels

/-- The find_element cascade of lines 366-384: a typed text input, then a
textarea, then any input, then (redundantly) a textarea again by tag name;
`find_element` yields the first match and raising is modelled as `none`. -/
def findTextTarget (c : Container) : Option Nat :=
  match (c.inputs.filter (fun e => e.isTextType)).head? with
  | some e => some e.id
  | none =>
    match c.textareas.head? with
    | some t => some t
    | none =>
      match c.inputs.head? with
      | some e => some e.id
      | none => c.textareas.head?

/-- A question record at fill time: `gemini_answer` is absent when the
answer step never ran. -/
structure AnsweredQuestion where
  question_text : String
  options : List String
  gemini_answer : Option String
deriving Repr, DecidableEq

/-- One observable driver effect. -/
inductive Action where
  | clickOption (q : Nat) (widget : Nat) : Action
  | warnNoOptionElems (q : Nat) : Action
  | warnFallback (q : Nat) : Action
  | fillText (q : Nat) (elem : Nat) (text : String) : Action
  | errorNoInput (q : Nat) : Action
deriving Repr, DecidableEq

/-- The choice branch (lines 216-358): find option widgets (warn and move on
when none), extract their texts, run the tiers, and click; when no tier
clicked, warn and click the first widget. -/
def processChoice (idx : Nat) (c : Container) (answer : String)
    (options : List String) : List Action :=
  if optionElements c = [] then [Action.warnNoOptionElems idx]
  else
    match matchTiers answer ((optionElements c).map widgetText) options with
    | some w => [Action.clickOption idx w]
    | none => [Action.warnFallback idx, Action.clickOption idx 0]

/-- The text branch (lines 359-392): resolve a text-input-like element and
type the answer into it (clear then send_keys, one fill effect), or report
the absence and move on. -/
def processText (idx : Nat) (c : Container) (answer : String) : List Action :=
  match findTextTarget c with
  | some e => [Action.fillText idx e answer]
  | none => [Action.errorNoInput idx]

/-- One loop iteration (lines 203-392): the stripped stored answer (empty
when the record has none), branching on whether the record's options are
nonempty. -/
def processOne (idx : Nat) (c : Container) (q : AnsweredQuestion) : List Action :=
  if q.options ≠ [] then
    processChoice idx c (pyStripS (q.gemini_answer.getD "")) q.options
  else processText idx c (pyStripS (q.gemini_answer.getD ""))

/-- The record loop (lines 203-206): records are matched to containers by
position; the loop breaks when records outnumber containers. -/
def processQuestions (containers : List Container) :
    Nat → List AnsweredQuestion → List Action
  | _, [] => []
  | idx, q :: rest =>
    match containers.get? idx with
    | none => []
    | some c => processOne idx c q ++ processQuestions containers (idx + 1) rest

/-- The container search of lines 189-191: the primary selector, then the
listitem selector when the primary finds nothing. -/
def locateContainers (primary secondary : List Container) : List Container :=
  if primary ≠ [] then primary else secondary

/-- fill_form (lines 184-395): `False` only when both container selectors
find nothing; otherwise process every positionally-matched record and
return `True`. -/
def fill_form (primary secondary : List Container)
    (questions : List AnsweredQuestion) : Bool × List Action :=
  if locateContainers primary secondary = [] then (false, [])
  else (true, processQuestions (locateContainers primary secondary) 0 questions)

/-- C10: the driver returns failure exactly when no question containers are
located by either selector; with any container present it returns success
for every record list — regardless of per-question outcomes, and with
records beyond the container count skipped. -/
theorem fill_form_false_iff (primary secondary : List Container)
    (questions : List AnsweredQuestion) :
    (fill_form primary secondary questions).1 = false ↔
      primary = [] ∧ secondary = [] := by
  by_cases hp : primary = []
  · by_cases hs : secondary = []
    · simp [fill_form, locateContainers, hp, hs]
    · simp [fill_form, locateContainers, hp, hs]
  · simp [fill_form, locateContainers, hp]

/-- C8: free-text fill order.  For a record with no options the answer is
typed into the first typed text input when one exists; otherwise into the
first textarea; otherwise into the first input of any kind; and when the
container has no input-like element at all the absence is reported and the
driver continues with the remaining records (no abort). -/
theorem text_fill_order (idx : Nat) (c : Container) (q : AnsweredQuestion)
    (hq : q.options = []) :
    (∀ e, (c.inputs.filter (fun e => e.isTextType)).head? = some e →
      processOne idx c q =
        [Action.fillText idx e.id (pyStripS (q.gemini_answer.getD ""))]) ∧
    (c.inputs.filter (fun e => e.isTextType) = [] → ∀ t, c.textareas.head? = some t →
      processOne idx c q =
        [Action.fillText idx t (pyStripS (q.gemini_answer.getD ""))]) ∧
    (c.inputs.filter (fun e => e.isTextType) = [] → c.textareas = [] →
      ∀ e, c.inputs.head? = some e →
      processOne idx c q =
        [Action.fillText idx e.id (pyStripS (q.gemini_answer.getD ""))]) ∧
    (c.inputs = [] → c.textareas = [] →
      processOne idx c q = [Action.errorNoInput idx]) ∧
    (∀ (containers : List Container) (rest : List AnsweredQuestion),
      containers.get? idx = some c →
      processQuestions containers idx (q :: rest) =
        processOne idx c q ++ processQuestions containers (idx + 1) rest) := by
  have hbranch : processOne idx c q =
      processText idx c (pyStripS (q.gemini_answer.getD "")) := by
    unfold processOne
    rw [if_neg (by simp [hq])]
  refine ⟨fun e he => ?_, fun hf t ht => ?_, fun hf hta e he => ?_,
    fun hi hta => ?_, fun containers rest hc => ?_⟩
  · rw [hbranch]
    simp only [processText, findTextTarget, he]
  · rw [hbranch]
    simp only [processText, findTextTarget, hf, ht, List.head?_nil]
  · rw [hbranch]
    simp only [processText, findTextTarget, hf, hta, List.head?_nil, he]
  · rw [hbranch]
    simp only [processText, findTextTarget, hi, hta, List.filter_nil, List.head?_nil]
  · show (match containers.get? idx with
      | none => []
      | some c0 => processOne idx c0 q ++ processQuestions containers (idx + 1) rest) =
      processOne idx c q ++ processQuestions containers (idx + 1) rest
    rw [hc]

/-- Witness for C8 at a concrete input: a container with a single typed
text input (id 7) receives the stripped stored answer. -/
theorem text_fill_order_witness :
    processOne 0 ⟨[], [], [], [], [⟨7, true⟩], []⟩ ⟨"Q", [], some " Hi "⟩ =
      [Action.fillText 0 7 (pyStripS " Hi ")] :=
  (text_fill_order 0 ⟨[], [], [], [], [⟨7, true⟩], []⟩ ⟨"Q", [], some " Hi "⟩ rfl).1
    ⟨7, true⟩ rfl

end FormFiller
